import Mathlib

/-!
Shallow embedding of the ESP32 voltage recorder firmware (`src/src/main.cpp`)
and proofs about it.

Modelling conventions:
* C `float`/`double` voltage values and durations are modelled as exact
  rationals (`ℚ`); the one place where the claims are sensitive to IEEE-754
  rounding (the DAC conversion of a full-scale sample in `replayVoltages`,
  lines 319-324) is additionally modelled with explicit binary32/binary64
  round-to-nearest-even arithmetic (see `flAt`, `f32three3`, `dacCodeIEEE4V`).
* C `int` is modelled as `ℤ` (with `Int.tdiv` for C's truncating division),
  `unsigned long` (32 bits on the ESP32) subtraction as `usub32`, and
  `uint32_t` accumulation with an explicit `% 2 ^ 32`.
* Hardware inputs are parameters: raw ADC readings are a function
  `raws : ℕ → ℕ` (the value of `adc1_get_raw` at each iteration of the
  oversampling loop), the vendor calibration curve `esp_adc_cal_raw_to_voltage`
  is a function `cal : ℕ → ℕ` (millivolts per raw code), and every call of
  `millis()` is an explicit `ℕ` argument.
* Serial output is modelled as a list of `Msg` values, one constructor per
  `Serial.print*` statement of the modelled functions (the textual formatting
  is abstracted away; payloads keep the printed numbers).  DAC output is
  modelled as the list of codes passed to `dac_output_voltage`.
* The LED (`digitalWrite`) and the serial-input draining loops have no
  bearing on any claim and are not modelled.
-/

/-- Models the `MAX_SAMPLES` constant (line 32 of `main.cpp`). -/
def MAX_SAMPLES : ℤ := 5000

/-- Models the `DEFAULT_SAMPLE_RATE` constant (line 33 of `main.cpp`). -/
def DEFAULT_SAMPLE_RATE : ℤ := 100

/-- Wraparound subtraction `a - b` of two 32-bit unsigned values
(`unsigned long` on the ESP32), as used for `millis()` differences. -/
def usub32 (a b : ℕ) : ℕ := (((a : ℤ) - (b : ℤ)) % (2 ^ 32 : ℤ)).toNat

/-- One serial output message; one constructor per `Serial.print*` call site in
the modelled functions.  Payloads are the numbers interpolated into the format
strings (formatting itself is abstracted). -/
inductive Msg where
  | alreadyRecording
  | startedRecording (rate : ℤ)
  | typeStopToEnd
  | notRecording
  | recordingStopped (n : ℤ)
  | actualRecDuration (secs : ℚ)
  | typeShowOrReplay
  | noDataRecorded
  | printingSamples (n : ℤ)
  | dataHeader
  | dataSeparator
  | dataRow (i : ℕ) (v : ℚ) (tMs : ℚ)
  | pressAnyKey
  | totalSamples (n : ℤ)
  | noReplayData
  | replayingSamples (n : ℤ)
  | dacNote
  | typeKeyToStop
  | replaySampleInfo (i : ℕ) (v : ℚ) (dac : ℕ)
  | replayCompleted
  | replayReport (expected actual : ℚ)
  | replayRateWarning
  | timingError
  | bufferCleared
  | rateSet (n : ℤ)
  | rateWarning
  | invalidRate
  | samplesSet (n : ℤ)
  | invalidSamples
  | currentVoltage (v : ℚ)
  | calibrateGround
  | offsetCalibrated (v : ℚ)
  | statusHeader
  | statusRecording (b : Bool)
  | statusBufferCount (n : ℤ)
  | statusRate (n : ℤ)
  | statusMemUsage (kb : ℚ)
  | statusVoltage (v : ℚ)
  | statusRange (mn mx avg : ℚ)
  | statusDuration (secs : ℚ)
  | recordedProgress (n : ℤ)
  | bufferFullMsg
  | unknownCommand
  | helpText
deriving DecidableEq

/-- The global mutable state of the firmware (lines 38-47 of `main.cpp`).
`voltageBuffer` is a 5000-entry `float` array, modelled as a `List ℚ` of
length 5000; `sampleCount`, `sampleRate` and `ADC_SAMPLES` are C `int`s,
modelled as `ℤ`; the three `unsigned long` millisecond timestamps are `ℕ`. -/
structure St where
  recording : Bool
  buffer : List ℚ
  sampleCount : ℤ
  sampleRate : ℤ
  lastSampleTime : ℕ
  recordingStartTime : ℕ
  recordingEndTime : ℕ
  adcOffset : ℚ
  adcSamples : ℤ
deriving DecidableEq

/-- Initial values of the globals (lines 38-47): not recording, zero-initialised
buffer, `sampleCount = 0`, rate 100 Hz, all timestamps 0, zero offset, 64-fold
oversampling. -/
def initSt : St :=
  { recording := false
    buffer := List.replicate 5000 0
    sampleCount := 0
    sampleRate := DEFAULT_SAMPLE_RATE
    lastSampleTime := 0
    recordingStartTime := 0
    recordingEndTime := 0
    adcOffset := 0
    adcSamples := 64 }

/-- Oversampled raw average converted to millivolts and then volts: the shared
computation of `readVoltageHighPrecision` (lines 151-160) and
`calibrateADCOffset` (lines 170-177).  `total` is a `uint32_t` accumulator
(hence the `% 2 ^ 32`), `average` uses C unsigned division, `cal` is the vendor
calibration curve, and the final division by 1000 converts mV to V. -/
def rawAvgVolts (nSamp : ℤ) (raws : ℕ → ℕ) (cal : ℕ → ℕ) : ℚ :=
  let total : ℕ := (((List.range nSamp.toNat).map raws).sum) % 2 ^ 32
  let average : ℕ := total / nSamp.toNat
  (cal average : ℚ) / 1000

/-- Models `readVoltageHighPrecision` (lines 150-165): oversampled averaged
reading, offset subtraction, and the final clamp of negative values to 0. -/
def readVoltageHighPrecision (nSamp : ℤ) (raws : ℕ → ℕ) (cal : ℕ → ℕ)
    (offset : ℚ) : ℚ :=
  let voltage := rawAvgVolts nSamp raws cal - offset
  if voltage < 0 then 0 else voltage

/-- Models `calibrateADCOffset` (lines 168-179): stores the un-offset averaged
reading as the new `adcOffset`. -/
def calibrateADCOffset (st : St) (raws : ℕ → ℕ) (cal : ℕ → ℕ) :
    St × List Msg :=
  let off := rawAvgVolts st.adcSamples raws cal
  ({ st with adcOffset := off }, [Msg.calibrateGround, Msg.offsetCalibrated off])

/-- Models `startRecording` (lines 249-260): a no-op report if already
recording; otherwise resets `sampleCount`, raises the flag and stores
`millis()` into `lastSampleTime` and `recordingStartTime`. -/
def startRecording (st : St) (now : ℕ) : St × List Msg :=
  if st.recording then
    (st, [Msg.alreadyRecording])
  else
    ({ st with sampleCount := 0, recording := true, lastSampleTime := now
               recordingStartTime := now },
     [Msg.startedRecording st.sampleRate, Msg.typeStopToEnd])

/-- Models `stopRecording` (lines 265-276): a no-op report if not recording;
otherwise clears the flag, stores `millis()` into `recordingEndTime` and
reports the captured count and wall-clock duration. -/
def stopRecording (st : St) (now : ℕ) : St × List Msg :=
  if st.recording then
    ({ st with recording := false, recordingEndTime := now },
     [Msg.recordingStopped st.sampleCount,
      Msg.actualRecDuration ((usub32 now st.recordingStartTime : ℚ) / 1000),
      Msg.typeShowOrReplay])
  else
    (st, [Msg.notRecording])

/-- Models the `clear` command branch (lines 205-208): zero the count, report. -/
def clearCommand (st : St) : St × List Msg :=
  ({ st with sampleCount := 0 }, [Msg.bufferCleared])

/-- Models the `rate` command branch (lines 209-220).  `n` is the value
returned by `command.substring(5).toInt()`; Arduino `toInt` yields 0 on a
malformed argument, which falls into the rejection branch. -/
def rateCommand (st : St) (n : ℤ) : St × List Msg :=
  if 0 < n ∧ n ≤ 10000 then
    ({ st with sampleRate := n },
     Msg.rateSet n :: (if 200 < n then [Msg.rateWarning] else []))
  else
    (st, [Msg.invalidRate])

/-- Models the `samples` command branch (lines 221-229). -/
def samplesCommand (st : St) (n : ℤ) : St × List Msg :=
  if 1 ≤ n ∧ n ≤ 1024 then
    ({ st with adcSamples := n }, [Msg.samplesSet n])
  else
    (st, [Msg.invalidSamples])

/-- Threshold of the recording scheduler: the C expression `1000 / sampleRate`
(line 95), an `int` division truncating toward zero, subsequently compared
against an `unsigned long`, hence the conversion `(· % 2 ^ 32).toNat`. -/
def tickThreshold (rate : ℤ) : ℕ := ((Int.tdiv 1000 rate) % (2 ^ 32 : ℤ)).toNat

/-- Models one iteration of the recording part of `loop` (lines 91-111):
if recording and the buffer is not full, possibly re-base `recordingStartTime`,
and if at least `1000 / sampleRate` milliseconds have elapsed, append one
reading and bump the count; on reaching `MAX_SAMPLES` the code falls into
`stopRecording` (line 108), whose `millis()` call is the argument `now2`. -/
def loopTick (st : St) (now now2 : ℕ) (raws : ℕ → ℕ) (cal : ℕ → ℕ) :
    St × List Msg :=
  if st.recording ∧ st.sampleCount < MAX_SAMPLES then
    let st1 := if st.sampleCount = 0 then { st with recordingStartTime := now }
               else st
    if tickThreshold st1.sampleRate ≤ usub32 now st1.lastSampleTime then
      let v := readVoltageHighPrecision st1.adcSamples raws cal st1.adcOffset
      let st2 := { st1 with
                    buffer := st1.buffer.set st1.sampleCount.toNat v
                    sampleCount := st1.sampleCount + 1
                    lastSampleTime := now }
      let progress := if st2.sampleCount % 100 = 0
                      then [Msg.recordedProgress st2.sampleCount] else []
      if MAX_SAMPLES ≤ st2.sampleCount then
        let (st3, msgs) := stopRecording st2 now2
        (st3, progress ++ Msg.bufferFullMsg :: msgs)
      else
        (st2, progress)
    else
      (st1, [])
  else
    (st, [])

/-- Models `printData` (lines 281-301).  Each row `i` prints `voltageBuffer[i]`
and `(float)i * 1000.0 / sampleRate`; after every 20th row (except a final
one) the code pauses for a key press. -/
def printData (st : St) : List Msg :=
  if st.sampleCount = 0 then
    [Msg.noDataRecorded]
  else
    Msg.printingSamples st.sampleCount :: Msg.dataHeader :: Msg.dataSeparator ::
      (((List.range st.sampleCount.toNat).map (fun i =>
          Msg.dataRow i (st.buffer.getD i 0) ((i : ℚ) * 1000 / st.sampleRate) ::
            (if (i + 1) % 20 = 0 ∧ (i : ℤ) < st.sampleCount - 1
             then [Msg.pressAnyKey] else []))).flatten
        ++ [Msg.dataSeparator, Msg.totalSamples st.sampleCount])

/-- Projection selecting the data rows from a `printData` output. -/
def rowsOf (msgs : List Msg) : List (ℕ × ℚ × ℚ) :=
  msgs.filterMap (fun m =>
    match m with
    | Msg.dataRow i v t => some (i, v, t)
    | _ => none)

/-- Exact-arithmetic DAC conversion of one replayed sample (lines 319-324):
clamp to 3.3 V from above, clamp to 0 V from below, scale by `255 / 3.3` and
truncate to an unsigned 8-bit code.  The arithmetic here is exact; the
IEEE-754 evaluation of the same lines, on which one claim turns, is modelled
separately below (`dacCodeIEEE4V`). -/
def dacOf (v : ℚ) : ℕ :=
  let v1 := if (33 : ℚ) / 10 < v then 33 / 10 else v
  let v2 := if v1 < 0 then 0 else v1
  (⌊v2 * 255 / ((33 : ℚ) / 10)⌋).toNat

/-- Replay inner loop (lines 318-337) over the listed indices, threading
`lastPrintedVoltage` (initially -1.0).  Returns the `Sample i: ...` messages
and the DAC codes written.  The per-sample busy-wait timing (lines 331-336)
affects no modelled value and is omitted. -/
def replayLoop (buf : List ℚ) (rate : ℤ) (lastP : ℚ) :
    List ℕ → List Msg × List ℕ
  | [] => ([], [])
  | i :: rest =>
    let v0 := buf.getD i 0
    let v1 := if (33 : ℚ) / 10 < v0 then 33 / 10 else v0
    let v2 := if v1 < 0 then 0 else v1
    let dac := dacOf v0
    let printed := (i : ℤ) % 50 = 0 ∨ (1 : ℚ) / 10 < |v2 - lastP|
    let rec' := replayLoop buf rate (if printed then v2 else lastP) rest
    ((if printed then [Msg.replaySampleInfo i v2 dac] else []) ++ rec'.1,
     dac :: rec'.2)

/-- Models `replayVoltages` (lines 306-353).  `k` is the iteration index at
which `Serial.available()` first becomes true (so the loop runs over indices
`0 ≤ i < min sampleCount k`); `t0` and `t1` are the `millis()` readings taken
at lines 314 and 338.  Returns the serial messages and the list of DAC codes
written (including the final reset write of 0 at line 342). -/
def replayVoltages (st : St) (k : ℕ) (t0 t1 : ℕ) : List Msg × List ℕ :=
  if st.sampleCount = 0 then
    ([Msg.noReplayData], [])
  else
    let looped :=
      replayLoop st.buffer st.sampleRate (-1)
        (List.range (min st.sampleCount.toNat k))
    let replaySec : ℚ := (usub32 t1 t0 : ℚ) / 1000
    let expectedSec : ℚ :=
      if st.recordingStartTime < st.recordingEndTime then
        (usub32 st.recordingEndTime st.recordingStartTime : ℚ) / 1000
      else
        (st.sampleCount : ℚ) / st.sampleRate
    (Msg.replayingSamples st.sampleCount :: Msg.dacNote :: Msg.typeKeyToStop ::
       looped.1
       ++ [Msg.replayCompleted, Msg.replayReport expectedSec replaySec]
       ++ (if 200 < st.sampleRate then [Msg.replayRateWarning] else [])
       ++ (if (2 : ℚ) / 10 * expectedSec < |replaySec - expectedSec|
           then [Msg.timingError] else []),
     looped.2 ++ [0])

/-- Minimum of the valid buffer entries as computed by `printStatus`
(lines 370-374): start from `voltageBuffer[0]` and fold over all indices
below `sampleCount`. -/
def statusMin (st : St) : ℚ :=
  (List.range st.sampleCount.toNat).foldl
    (fun m i => if st.buffer.getD i 0 < m then st.buffer.getD i 0 else m)
    (st.buffer.getD 0 0)

/-- Maximum of the valid buffer entries as computed by `printStatus`. -/
def statusMax (st : St) : ℚ :=
  (List.range st.sampleCount.toNat).foldl
    (fun m i => if m < st.buffer.getD i 0 then st.buffer.getD i 0 else m)
    (st.buffer.getD 0 0)

/-- Average of the valid buffer entries as computed by `printStatus`
(lines 371-377): sum the prefix, then divide by `sampleCount`. -/
def statusAvg (st : St) : ℚ :=
  ((List.range st.sampleCount.toNat).foldl
    (fun s i => s + st.buffer.getD i 0) 0) / (st.sampleCount : ℚ)

/-- Models `printStatus` (lines 358-381); the live reading needs the hardware
inputs `raws` and `cal`. -/
def printStatus (st : St) (raws : ℕ → ℕ) (cal : ℕ → ℕ) : List Msg :=
  [Msg.statusHeader, Msg.statusRecording st.recording,
   Msg.statusBufferCount st.sampleCount, Msg.statusRate st.sampleRate]
  ++ (if 200 < st.sampleRate then [Msg.rateWarning] else [])
  ++ [Msg.statusMemUsage ((st.sampleCount : ℚ) * 4 / 1024),
      Msg.statusVoltage
        (readVoltageHighPrecision st.adcSamples raws cal st.adcOffset)]
  ++ (if 0 < st.sampleCount then
        [Msg.statusRange (statusMin st) (statusMax st) (statusAvg st),
         Msg.statusDuration
           (if st.recordingStartTime < st.recordingEndTime then
              (usub32 st.recordingEndTime st.recordingStartTime : ℚ) / 1000
            else 0)]
      else [])

/-- Environment events driving the firmware: one constructor per serial
command (carrying its parsed argument and the hardware/clock inputs it
consumes) plus the sampling part of `loop` (`tick`).  Any interleaving of
commands and ticks is a possible run of the single-threaded control loop. -/
inductive Ev where
  | tick (now now2 : ℕ) (raws : ℕ → ℕ) (cal : ℕ → ℕ)
  | start (now : ℕ)
  | stop (now : ℕ)
  | show
  | replay (k t0 t1 : ℕ)
  | status (raws : ℕ → ℕ) (cal : ℕ → ℕ)
  | clear
  | rate (n : ℤ)
  | samples (n : ℤ)
  | read (raws : ℕ → ℕ) (cal : ℕ → ℕ)
  | calibrate (raws : ℕ → ℕ) (cal : ℕ → ℕ)
  | help
  | unknown

/-- State transition of one event.  Commands that only print (`show`,
`status`, `read`, `replay`, `help`, unknown input) leave the recorder state
unchanged, exactly as in the source, where they mutate no global. -/
def step (st : St) : Ev → St
  | Ev.tick now now2 raws cal => (loopTick st now now2 raws cal).1
  | Ev.start now => (startRecording st now).1
  | Ev.stop now => (stopRecording st now).1
  | Ev.show => st
  | Ev.replay _ _ _ => st
  | Ev.status _ _ => st
  | Ev.clear => (clearCommand st).1
  | Ev.rate n => (rateCommand st n).1
  | Ev.samples n => (samplesCommand st n).1
  | Ev.read _ _ => st
  | Ev.calibrate raws cal => (calibrateADCOffset st raws cal).1
  | Ev.help => st
  | Ev.unknown => st

/-- State reached from the initial state after a sequence of events. -/
def reach (evs : List Ev) : St := evs.foldl step initSt

/-- Round a rational to the nearest integer, ties to the even neighbour
(the IEEE-754 default rounding applied to a value scaled by the ulp). -/
def roundTiesEven (x : ℚ) : ℤ :=
  let n := ⌊x⌋
  if x - n < 1 / 2 then n
  else if 1 / 2 < x - n then n + 1
  else if 2 ∣ n then n else n + 1

/-- Round `x` to the nearest multiple of `ulp`, ties to even: the correctly
rounded IEEE-754 result of an operation whose exact value is `x`, for a
floating-point format whose unit in the last place at the magnitude of `x`
is `ulp`.  The caller supplies the ulp; each use below is accompanied by a
proved range certificate justifying it. -/
def flAt (ulp : ℚ) (x : ℚ) : ℚ := (roundTiesEven (x / ulp) : ℚ) * ulp

/-- Value of the literal `3.3` as an IEEE binary32 `float`: `3.3 ∈ [2, 4)`, so
the ulp is `2 ^ (1 - 23) = 2 ^ -22`.  This is what `voltage = 3.3` stores at
line 322 (`voltage` is a `float`). -/
def f32three3 : ℚ := flAt (1 / 2 ^ 22) (33 / 10)

/-- Value of the literal `3.3` as an IEEE binary64 `double`: ulp `2 ^ -51`.
This is the divisor in `voltage * 255.0 / 3.3` at line 324 (a `double`
constant). -/
def f64three3 : ℚ := flAt (1 / 2 ^ 51) (33 / 10)

/-- IEEE-754 evaluation of `(uint8_t)(voltage * 255.0 / 3.3)` (line 324) for a
stored sample of at least 3.3 V, after the clamp `voltage = 3.3` (line 322):
the `float` 3.3 is promoted to `double` exactly, the product (about 841.5,
in `[2^9, 2^10)`, ulp `2^-43`) and the quotient (about 255, in `[2^7, 2^8)`,
ulp `2^-45`) are each correctly rounded to binary64, and the cast truncates
toward zero. -/
def dacCodeIEEE4V : ℕ :=
  (⌊flAt (1 / 2 ^ 45) (flAt (1 / 2 ^ 43) (f32three3 * 255) / f64three3)⌋).toNat

/-- Conversion formula asserted by the specification for a replayed sample,
in exact arithmetic: clamp to `[0, 3.3]`, scale linearly to `0-255`, truncate.
Written from the claim text, for comparison with the source model `dacOf` and
the IEEE evaluation `dacCodeIEEE4V`. -/
def specDacCode (v : ℚ) : ℕ :=
  (⌊min (max v 0) ((33 : ℚ) / 10) * 255 / ((33 : ℚ) / 10)⌋).toNat

/-- Duration formula asserted by the specification for the replay report:
the recorded wall-clock span when positive, else `sampleCount / sampleRateHz`
seconds.  Written from the claim text, for comparison with the ternary at
line 345. -/
def specExpectedSec (st : St) : ℚ :=
  if st.recordingStartTime < st.recordingEndTime then
    ((st.recordingEndTime - st.recordingStartTime : ℕ) : ℚ) / 1000
  else
    (st.sampleCount : ℚ) / st.sampleRate

/-- Helper: `getD` of a zero-filled buffer is zero at every index. -/
theorem getD_replicate_zero (n i : ℕ) : (List.replicate n (0 : ℚ)).getD i 0 = 0 := by
  rw [List.getD_eq_getElem?_getD, List.getElem?_replicate]
  split <;> rfl

/-- Helper: setting a nonnegative value preserves pointwise nonnegativity of a
buffer. -/
theorem getD_set_nonneg {l : List ℚ} {v : ℚ} (hl : ∀ i, 0 ≤ l.getD i 0)
    (hv : 0 ≤ v) (k i : ℕ) : 0 ≤ (l.set k v).getD i 0 := by
  rw [List.getD_eq_getElem?_getD, List.getElem?_set]
  split
  · split
    · simpa using hv
    · simp
  · simpa [List.getD_eq_getElem?_getD] using hl i

/-- C10: the `clear` command zeroes `sampleCount` in every state and changes
no other component: the recording flag, the buffer contents, the sample rate,
both timestamps, the last-sample time, the calibration offset and the
oversample count are all preserved. -/
theorem claim10_clear_frame (st : St) :
    (clearCommand st).1.sampleCount = 0 ∧
    (clearCommand st).1.recording = st.recording ∧
    (clearCommand st).1.buffer = st.buffer ∧
    (clearCommand st).1.sampleRate = st.sampleRate ∧
    (clearCommand st).1.lastSampleTime = st.lastSampleTime ∧
    (clearCommand st).1.recordingStartTime = st.recordingStartTime ∧
    (clearCommand st).1.recordingEndTime = st.recordingEndTime ∧
    (clearCommand st).1.adcOffset = st.adcOffset ∧
    (clearCommand st).1.adcSamples = st.adcSamples ∧
    (clearCommand st).2 = [Msg.bufferCleared] := by
  simp [clearCommand]

/-- C4: each precondition violation (`stop` while idle, `start` while
recording, `replay` or `show` with an empty buffer) emits exactly one message,
leaves the whole recorder state unchanged, and the empty replay writes nothing
to the DAC. -/
theorem claim4_precondition_noops :
    (∀ st now, st.recording = false → stopRecording st now = (st, [Msg.notRecording])) ∧
    (∀ st now, st.recording = true → startRecording st now = (st, [Msg.alreadyRecording])) ∧
    (∀ st k t0 t1, st.sampleCount = 0 →
      replayVoltages st k t0 t1 = ([Msg.noReplayData], [])) ∧
    (∀ st, st.sampleCount = 0 → printData st = [Msg.noDataRecorded]) := by
  refine ⟨?_, ?_, ?_, ?_⟩ <;> intros st <;>
    intros <;> simp_all [stopRecording, startRecording, replayVoltages, printData]

/-- Witness for C4 at concrete states. -/
theorem claim4_precondition_noops_witness :
    stopRecording initSt 5 = (initSt, [Msg.notRecording]) ∧
    startRecording { initSt with recording := true } 5 =
      ({ initSt with recording := true }, [Msg.alreadyRecording]) ∧
    replayVoltages initSt 3 0 7 = ([Msg.noReplayData], []) ∧
    printData initSt = [Msg.noDataRecorded] :=
  ⟨claim4_precondition_noops.1 initSt 5 rfl,
   claim4_precondition_noops.2.1 { initSt with recording := true } 5 rfl,
   claim4_precondition_noops.2.2.1 initSt 3 0 7 rfl,
   claim4_precondition_noops.2.2.2 initSt rfl⟩

/-- C2 (code bug): evaluated in the IEEE-754 float/double arithmetic the C
code actually uses, the DAC conversion of a stored sample of 4.0 V (or any
sample of at least 3.3 V, which line 322 clamps to the `float` value of 3.3)
produces code 254, not the maximum code 255 asserted by the claim and by the
comment at line 320, because the clamped `float` 3.3 is strictly below the
`double` 3.3 used as the divisor.  The final four conjuncts certify the ulps
used in `f32three3`, `f64three3` and `dacCodeIEEE4V`: 3.3 lies in `[2, 4)`
(binary32 ulp `2^-22`, binary64 ulp `2^-51`), the product lies in
`[2^9, 2^10)` (ulp `2^-43`) and the quotient in `[2^7, 2^8)` (ulp `2^-45`). -/
theorem claim2_dac_full_scale :
    dacCodeIEEE4V = 254 ∧
    specDacCode 4 = 255 ∧
    f32three3 < f64three3 ∧
    ((2 : ℚ) ≤ 33 / 10 ∧ (33 : ℚ) / 10 < 4) ∧
    ((2 : ℚ) ^ 9 ≤ f32three3 * 255 ∧ f32three3 * 255 < 2 ^ 10) ∧
    ((2 : ℚ) ^ 7 ≤ flAt (1 / 2 ^ 43) (f32three3 * 255) / f64three3 ∧
      flAt (1 / 2 ^ 43) (f32three3 * 255) / f64three3 < 2 ^ 8) := by
  refine ⟨?_, ?_, ?_, ?_, ?_, ?_⟩ <;>
    norm_num [dacCodeIEEE4V, specDacCode, f32three3, f64three3, flAt,
      roundTiesEven] <;> decide

/-- C3: a `rate N` command with `N ∈ [1, 10000]` sets `sampleRate` to `N`
(and `status` then reports exactly `N`), additionally warning exactly when
`N > 200`; any other argument (including the 0 that Arduino `toInt` returns
for malformed input) leaves the state untouched and emits the rejection
message. -/
theorem claim3_rate_command (st : St) (n : ℤ) :
    (1 ≤ n ∧ n ≤ 10000 →
      (rateCommand st n).1.sampleRate = n ∧
      (∀ raws cal, Msg.statusRate n ∈ printStatus (rateCommand st n).1 raws cal) ∧
      Msg.rateSet n ∈ (rateCommand st n).2 ∧
      (Msg.rateWarning ∈ (rateCommand st n).2 ↔ 200 < n)) ∧
    (¬(1 ≤ n ∧ n ≤ 10000) →
      (rateCommand st n).1 = st ∧ (rateCommand st n).2 = [Msg.invalidRate]) := by
  constructor
  · rintro ⟨h1, h2⟩
    have hc : 0 < n ∧ n ≤ 10000 := ⟨h1, h2⟩
    refine ⟨by simp [rateCommand, hc], ?_, ?_, ?_⟩
    · intro raws cal
      simp [printStatus, rateCommand, hc]
    · simp [rateCommand, hc]
    · constructor
      · intro hm
        by_contra hn
        simp [rateCommand, hc, hn] at hm
      · intro hgt
        simp [rateCommand, hc, hgt]
  · intro h
    have hc : ¬(0 < n ∧ n ≤ 10000) := h
    simp [rateCommand, hc]

/-- Witness for C3: accepted rate 50 (no warning), accepted rate 300 (with
warning), rejected rate 0. -/
theorem claim3_rate_command_witness :
    (rateCommand initSt 50).1.sampleRate = 50 ∧
    ¬ Msg.rateWarning ∈ (rateCommand initSt 50).2 ∧
    (rateCommand initSt 300).1.sampleRate = 300 ∧
    Msg.rateWarning ∈ (rateCommand initSt 300).2 ∧
    (rateCommand initSt 0).1 = initSt ∧
    (rateCommand initSt 0).2 = [Msg.invalidRate] := by
  refine ⟨((claim3_rate_command initSt 50).1 (by decide)).1,
    fun hm => by have := ((claim3_rate_command initSt 50).1 (by decide)).2.2.2.mp hm; omega,
    ((claim3_rate_command initSt 300).1 (by decide)).1,
    ((claim3_rate_command initSt 300).1 (by decide)).2.2.2.mpr (by decide),
    ((claim3_rate_command initSt 0).2 (by decide)).1,
    ((claim3_rate_command initSt 0).2 (by decide)).2⟩

/-- C5: a `start` command in the idle state resets `sampleCount` to 0
regardless of prior occupancy, sets the recording flag and records the start
timestamp; consequently a tick that then takes a sample stores it at buffer
index 0. -/
theorem claim5_start_resets (st : St) (now : ℕ) (h : st.recording = false) :
    (startRecording st now).1.sampleCount = 0 ∧
    (startRecording st now).1.recording = true ∧
    (startRecording st now).1.recordingStartTime = now ∧
    (∀ n1 n2 raws cal,
      (loopTick (startRecording st now).1 n1 n2 raws cal).1.sampleCount ≠ 0 →
      (loopTick (startRecording st now).1 n1 n2 raws cal).1.buffer =
        st.buffer.set 0
          (readVoltageHighPrecision st.adcSamples raws cal st.adcOffset)) := by
  have hs : (startRecording st now).1 =
      { st with sampleCount := 0, recording := true, lastSampleTime := now
                recordingStartTime := now } := by
    simp [startRecording, h]
  refine ⟨by rw [hs], by rw [hs], by rw [hs], ?_⟩
  intro n1 n2 raws cal hne
  rw [hs] at hne ⊢
  by_cases ht : tickThreshold st.sampleRate ≤ usub32 n1 now
  · simp [loopTick, MAX_SAMPLES, ht]
  · exfalso
    apply hne
    simp [loopTick, MAX_SAMPLES, ht]

/-- Witness for C5: starting from the initial state with nonzero prior
occupancy, then a tick 20 ms later (rate 100 Hz, threshold 10 ms). -/
theorem claim5_start_resets_witness :
    (startRecording { initSt with sampleCount := 7 } 100).1.sampleCount = 0 ∧
    (startRecording { initSt with sampleCount := 7 } 100).1.recording = true ∧
    (startRecording { initSt with sampleCount := 7 } 100).1.recordingStartTime = 100 ∧
    (loopTick (startRecording { initSt with sampleCount := 7 } 100).1 120 121
        (fun _ => 0) (fun _ => 0)).1.buffer =
      (List.replicate 5000 0).set 0
        (readVoltageHighPrecision 64 (fun _ => 0) (fun _ => 0) 0) := by
  obtain ⟨h1, h2, h3, h4⟩ :=
    claim5_start_resets { initSt with sampleCount := 7 } 100 rfl
  exact ⟨h1, h2, h3, h4 120 121 (fun _ => 0) (fun _ => 0) (by decide)⟩

/-- Helper: one step preserves the occupancy bounds `0 ≤ sampleCount ≤ 5000`. -/
theorem step_count_bounds (st : St) (e : Ev) (h0 : 0 ≤ st.sampleCount)
    (h1 : st.sampleCount ≤ MAX_SAMPLES) :
    0 ≤ (step st e).sampleCount ∧ (step st e).sampleCount ≤ MAX_SAMPLES := by
  have hM : MAX_SAMPLES = 5000 := rfl
  rw [hM] at h1
  cases e with
  | tick now now2 raws cal =>
      simp only [step, loopTick, stopRecording, hM] at *
      split_ifs <;> simp_all <;> omega
  | start now =>
      simp only [step, startRecording, hM]
      split_ifs <;> simp_all
  | stop now =>
      simp only [step, stopRecording, hM]
      split_ifs <;> simp_all
  | clear =>
      simp only [step, clearCommand, hM]
      constructor <;> simp
  | rate n =>
      simp only [step, rateCommand, hM]
      split_ifs <;> simp_all
  | samples n =>
      simp only [step, samplesCommand, hM]
      split_ifs <;> simp_all
  | calibrate raws cal =>
      simp only [step, calibrateADCOffset, hM]
      constructor <;> simp_all
  | _ => simp only [step, hM]; exact ⟨h0, h1⟩

/-- Helper: the occupancy bounds hold in every reachable state. -/
theorem reach_count_bounds (evs : List Ev) :
    0 ≤ (reach evs).sampleCount ∧ (reach evs).sampleCount ≤ MAX_SAMPLES := by
  suffices h : ∀ (l : List Ev) (st : St), 0 ≤ st.sampleCount →
      st.sampleCount ≤ MAX_SAMPLES →
      0 ≤ (l.foldl step st).sampleCount ∧
      (l.foldl step st).sampleCount ≤ MAX_SAMPLES by
    exact h evs initSt (by decide) (by decide)
  intro l
  induction l with
  | nil => intro st h0 h1; exact ⟨h0, h1⟩
  | cons e l ih =>
      intro st h0 h1
      obtain ⟨g0, g1⟩ := step_count_bounds st e h0 h1
      exact ih (step st e) g0 g1

/-- C1: along every sequence of ticks and commands the occupancy satisfies
`0 ≤ sampleCount ≤ MAX_SAMPLES`; a tick at full occupancy changes nothing and
appends nothing; and the tick that makes the count reach `MAX_SAMPLES` turns
the recording flag off and records the end timestamp. -/
theorem claim1_occupancy_bounds :
    (∀ evs : List Ev, 0 ≤ (reach evs).sampleCount ∧
      (reach evs).sampleCount ≤ MAX_SAMPLES) ∧
    (∀ st now now2 raws cal, st.sampleCount = MAX_SAMPLES →
      loopTick st now now2 raws cal = (st, [])) ∧
    (∀ st now now2 raws cal, st.sampleCount < MAX_SAMPLES →
      (loopTick st now now2 raws cal).1.sampleCount = MAX_SAMPLES →
      (loopTick st now now2 raws cal).1.recording = false ∧
      (loopTick st now now2 raws cal).1.recordingEndTime = now2) := by
  refine ⟨reach_count_bounds, ?_, ?_⟩
  · intro st now now2 raws cal h
    simp [loopTick, h]
  · intro st now now2 raws cal hlt hfull
    simp only [loopTick, stopRecording, MAX_SAMPLES] at *
    split_ifs at hfull ⊢ <;> simp_all

/-- Witness for C1: a two-event trace, a tick at a full buffer, and the
buffer-filling tick from occupancy 4999. -/
theorem claim1_occupancy_bounds_witness :
    (0 ≤ (reach [Ev.start 0, Ev.tick 10 11 (fun _ => 0) (fun _ => 0)]).sampleCount ∧
      (reach [Ev.start 0, Ev.tick 10 11 (fun _ => 0) (fun _ => 0)]).sampleCount ≤
        MAX_SAMPLES) ∧
    loopTick { initSt with sampleCount := 5000 } 3 4 (fun _ => 0) (fun _ => 0) =
      ({ initSt with sampleCount := 5000 }, []) ∧
    ((loopTick { initSt with recording := true, sampleCount := 4999 } 20 21
        (fun _ => 0) (fun _ => 0)).1.recording = false ∧
      (loopTick { initSt with recording := true, sampleCount := 4999 } 20 21
        (fun _ => 0) (fun _ => 0)).1.recordingEndTime = 21) :=
  ⟨claim1_occupancy_bounds.1 [Ev.start 0, Ev.tick 10 11 (fun _ => 0) (fun _ => 0)],
   claim1_occupancy_bounds.2.1 { initSt with sampleCount := 5000 } 3 4
     (fun _ => 0) (fun _ => 0) rfl,
   claim1_occupancy_bounds.2.2 { initSt with recording := true, sampleCount := 4999 }
     20 21 (fun _ => 0) (fun _ => 0) (by decide) (by decide)⟩

/-- Helper: with the recording guard satisfied, a tick appends exactly when
the elapsed time reaches the `1000 / sampleRate` threshold. -/
theorem loopTick_append_iff (st : St) (now now2 : ℕ) (raws cal : ℕ → ℕ)
    (hr : st.recording = true) (hc : st.sampleCount < MAX_SAMPLES) :
    (loopTick st now now2 raws cal).1.sampleCount = st.sampleCount + 1 ↔
      tickThreshold st.sampleRate ≤ usub32 now st.lastSampleTime := by
  constructor
  · intro happ
    by_contra ht
    by_cases h0 : st.sampleCount = 0 <;>
      simp_all [loopTick, ht]
  · intro ht
    by_cases h0 : st.sampleCount = 0 <;>
      simp_all [loopTick, stopRecording, ht] <;>
      split_ifs <;> simp_all

/-- C7: the scheduler threshold is the truncating integer division
`1000 / sampleRate` (equal, for positive rates, to the floor of the exact
quotient), so for every configured rate in `(1000, 10000]` the threshold is
0 ms and a recording tick appends a sample on every loop iteration; in
general a tick appends exactly when the elapsed milliseconds reach
`1000 / sampleRate` rounded down. -/
theorem claim7_tick_threshold :
    (∀ st now now2 raws cal, st.recording = true →
      st.sampleCount < MAX_SAMPLES →
      ((loopTick st now now2 raws cal).1.sampleCount = st.sampleCount + 1 ↔
        tickThreshold st.sampleRate ≤ usub32 now st.lastSampleTime)) ∧
    (∀ rate : ℤ, 1 ≤ rate → (tickThreshold rate : ℤ) = Int.tdiv 1000 rate) ∧
    (∀ rate : ℤ, 1 ≤ rate → Int.tdiv 1000 rate = ⌊(1000 : ℚ) / (rate : ℚ)⌋) ∧
    (∀ rate : ℤ, 1000 < rate → rate ≤ 10000 → tickThreshold rate = 0) ∧
    (∀ st now now2 raws cal, st.recording = true →
      st.sampleCount < MAX_SAMPLES → 1000 < st.sampleRate →
      st.sampleRate ≤ 10000 →
      (loopTick st now now2 raws cal).1.sampleCount = st.sampleCount + 1) := by
  have htd : ∀ rate : ℤ, 1 ≤ rate → (tickThreshold rate : ℤ) = Int.tdiv 1000 rate := by
    intro rate h
    have h0 : (0 : ℤ) ≤ Int.tdiv 1000 rate := Int.tdiv_nonneg (by norm_num) (by omega)
    have h1 : Int.tdiv 1000 rate < 2 ^ 32 := by
      have : Int.tdiv 1000 rate ≤ 1000 := by
        rw [Int.tdiv_eq_ediv (by norm_num) (by omega)]
        exact Int.ediv_le_self rate (by norm_num)
      omega
    rw [tickThreshold, Int.emod_eq_of_lt h0 h1, Int.toNat_of_nonneg h0]
  have hz : ∀ rate : ℤ, 1000 < rate → rate ≤ 10000 → tickThreshold rate = 0 := by
    intro rate h1 _
    have : Int.tdiv 1000 rate = 0 := Int.tdiv_eq_zero_of_lt (by norm_num) h1
    simp [tickThreshold, this]
  refine ⟨fun st now now2 raws cal hr hc => loopTick_append_iff st now now2 raws cal hr hc,
    htd, ?_, hz, ?_⟩
  · intro rate h
    have h0 : (0 : ℤ) ≤ rate := by omega
    rw [Int.tdiv_eq_ediv (by norm_num) h0]
    have hcast : ((rate : ℚ)) = ((rate.toNat : ℕ) : ℚ) := by
      rw [← Int.toNat_of_nonneg h0]
      push_cast
      rw [Int.toNat_of_nonneg h0]
    rw [hcast, show ((1000 : ℚ)) = (((1000 : ℤ) : ℚ)) by norm_num,
      Rat.floor_intCast_div_natCast 1000 rate.toNat, Int.toNat_of_nonneg h0]
  · intro st now now2 raws cal hr hc h1 h2
    exact (loopTick_append_iff st now now2 raws cal hr hc).mpr
      (by rw [hz st.sampleRate h1 h2]; exact Nat.zero_le _)

/-- Witness for C7 at rate 2000 Hz (threshold 0, append on an immediate tick)
and rate 300 Hz (floor identity). -/
theorem claim7_tick_threshold_witness :
    ((loopTick { initSt with recording := true, sampleRate := 2000 } 5 6
        (fun _ => 0) (fun _ => 0)).1.sampleCount =
      ({ initSt with recording := true, sampleRate := 2000 } : St).sampleCount + 1 ↔
      tickThreshold 2000 ≤ usub32 5 0) ∧
    (tickThreshold 300 : ℤ) = Int.tdiv 1000 300 ∧
    Int.tdiv 1000 300 = ⌊(1000 : ℚ) / (300 : ℚ)⌋ ∧
    tickThreshold 2000 = 0 ∧
    (loopTick { initSt with recording := true, sampleRate := 2000 } 5 6
        (fun _ => 0) (fun _ => 0)).1.sampleCount =
      ({ initSt with recording := true, sampleRate := 2000 } : St).sampleCount + 1 :=
  ⟨claim7_tick_threshold.1 { initSt with recording := true, sampleRate := 2000 }
      5 6 (fun _ => 0) (fun _ => 0) rfl (by decide),
   claim7_tick_threshold.2.1 300 (by decide),
   claim7_tick_threshold.2.2.1 300 (by decide),
   claim7_tick_threshold.2.2.2.1 2000 (by decide) (by decide),
   claim7_tick_threshold.2.2.2.2 { initSt with recording := true, sampleRate := 2000 }
      5 6 (fun _ => 0) (fun _ => 0) rfl (by decide) (by decide) (by decide)⟩

/-- Helper: one step preserves pointwise nonnegativity of the buffer. -/
theorem step_buffer_nonneg (st : St) (e : Ev)
    (h : ∀ i, 0 ≤ st.buffer.getD i 0) :
    ∀ i, 0 ≤ (step st e).buffer.getD i 0 := by
  cases e with
  | tick now now2 raws cal =>
      intro i
      have hv : 0 ≤ readVoltageHighPrecision st.adcSamples raws cal st.adcOffset := by
        rw [readVoltageHighPrecision]
        split_ifs with hneg
        · exact le_refl 0
        · exact le_of_not_lt hneg
      simp only [step, loopTick, stopRecording]
      split_ifs <;>
        first
          | exact h i
          | exact getD_set_nonneg h hv _ i
  | start now =>
      simp only [step, startRecording]
      split_ifs <;> exact h
  | stop now =>
      simp only [step, stopRecording]
      split_ifs <;> exact h
  | clear => exact h
  | rate n =>
      simp only [step, rateCommand]
      split_ifs <;> exact h
  | samples n =>
      simp only [step, samplesCommand]
      split_ifs <;> exact h
  | calibrate raws cal => exact h
  | _ => exact h

/-- Helper: every buffer entry of every reachable state is nonnegative. -/
theorem reach_buffer_nonneg (evs : List Ev) :
    ∀ i, 0 ≤ (reach evs).buffer.getD i 0 := by
  suffices h : ∀ (l : List Ev) (st : St), (∀ i, 0 ≤ st.buffer.getD i 0) →
      ∀ i, 0 ≤ (l.foldl step st).buffer.getD i 0 by
    exact h evs initSt (fun i => le_of_eq (getD_replicate_zero 5000 i).symm)
  intro l
  induction l with
  | nil => intro st h i; exact h i
  | cons e l ih => intro st h; exact ih (step st e) (step_buffer_nonneg st e h)

/-- Helper: the running minimum of `printStatus` stays nonnegative over
nonnegative entries. -/
theorem statusMin_nonneg (st : St) (h : ∀ i, 0 ≤ st.buffer.getD i 0) :
    0 ≤ statusMin st := by
  rw [statusMin]
  generalize List.range st.sampleCount.toNat = l
  have h0 : 0 ≤ st.buffer.getD 0 0 := h 0
  generalize st.buffer.getD 0 0 = acc at h0 ⊢
  induction l generalizing acc with
  | nil => exact h0
  | cons a l ih =>
      rw [List.foldl_cons]
      apply ih
      split_ifs
      · exact h a
      · exact h0

/-- Helper: a left fold of additions of nonnegative values stays nonnegative. -/
theorem foldl_add_nonneg (g : ℕ → ℚ) (hg : ∀ i, 0 ≤ g i) :
    ∀ (l : List ℕ) (acc : ℚ), 0 ≤ acc →
      0 ≤ l.foldl (fun s i => s + g i) acc := by
  intro l
  induction l with
  | nil => intro acc hacc; exact hacc
  | cons a l ih =>
      intro acc hacc
      rw [List.foldl_cons]
      exact ih (acc + g a) (add_nonneg hacc (hg a))

/-- Helper: the reported average of a nonempty nonnegative prefix is
nonnegative. -/
theorem statusAvg_nonneg (st : St) (h : ∀ i, 0 ≤ st.buffer.getD i 0)
    (hc : 0 < st.sampleCount) : 0 ≤ statusAvg st := by
  rw [statusAvg]
  apply div_nonneg
  · exact foldl_add_nonneg (fun i => st.buffer.getD i 0) h
      (List.range st.sampleCount.toNat) 0 (le_refl 0)
  · exact_mod_cast le_of_lt hc

/-- C8: every voltage reading is clamped to be nonnegative, hence every entry
of the buffer of every reachable state is nonnegative, and the minimum and
average that `status` reports over a nonnegative buffer are nonnegative. -/
theorem claim8_nonneg :
    (∀ nSamp raws cal offset, 0 ≤ readVoltageHighPrecision nSamp raws cal offset) ∧
    (∀ evs i, 0 ≤ (reach evs).buffer.getD i 0) ∧
    (∀ st raws cal mn mx avg, (∀ i, 0 ≤ st.buffer.getD i 0) →
      Msg.statusRange mn mx avg ∈ printStatus st raws cal →
      0 ≤ mn ∧ 0 ≤ avg) := by
  refine ⟨?_, reach_buffer_nonneg, ?_⟩
  · intro nSamp raws cal offset
    rw [readVoltageHighPrecision]
    split_ifs with hneg
    · exact le_refl 0
    · exact le_of_not_lt hneg
  · intro st raws cal mn mx avg h hm
    by_cases hc : 0 < st.sampleCount
    · simp [printStatus, hc] at hm
      obtain ⟨rfl, -, rfl⟩ := hm
      exact ⟨statusMin_nonneg st h, statusAvg_nonneg st h hc⟩
    · simp [printStatus, hc] at hm

/-- Witness for C8: a concrete reading with a large offset, a reached buffer
entry, and the reported statistics of a one-sample state. -/
theorem claim8_nonneg_witness :
    0 ≤ readVoltageHighPrecision 64 (fun _ => 0) (fun _ => 0) (7 / 2) ∧
    0 ≤ (reach [Ev.start 3, Ev.tick 20 21 (fun _ => 0) (fun _ => 0)]).buffer.getD 0 0 ∧
    (0 ≤ statusMin { initSt with sampleCount := 1 } ∧
      0 ≤ statusAvg { initSt with sampleCount := 1 }) :=
  ⟨claim8_nonneg.1 64 (fun _ => 0) (fun _ => 0) (7 / 2),
   claim8_nonneg.2.1 [Ev.start 3, Ev.tick 20 21 (fun _ => 0) (fun _ => 0)] 0,
   claim8_nonneg.2.2 { initSt with sampleCount := 1 } (fun _ => 0) (fun _ => 0)
     (statusMin { initSt with sampleCount := 1 })
     (statusMax { initSt with sampleCount := 1 })
     (statusAvg { initSt with sampleCount := 1 })
     (fun i => le_of_eq (getD_replicate_zero 5000 i).symm)
     (by simp [printStatus])⟩

/-- Helper: the replay inner loop only emits per-sample messages. -/
theorem replayLoop_shape (buf : List ℚ) (rate : ℤ) :
    ∀ (l : List ℕ) (lastP : ℚ) (m : Msg), m ∈ (replayLoop buf rate lastP l).1 →
      ∃ i v d, m = Msg.replaySampleInfo i v d := by
  intro l
  induction l with
  | nil => intro lastP m hm; simp [replayLoop] at hm
  | cons a l ih =>
      intro lastP m hm
      rw [replayLoop] at hm
      simp only [List.mem_append] at hm
      rcases hm with hm | hm
      · split_ifs at hm <;> simp at hm <;> exact ⟨_, _, _, hm⟩
      · exact ih _ m hm

/-- Helper: a 32-bit unsigned `millis()` difference of in-range, ordered
timestamps is the plain difference. -/
theorem usub32_eq_sub (a b : ℕ) (h : b ≤ a) (h2 : a - b < 2 ^ 32) :
    usub32 a b = a - b := by
  rw [usub32]
  have hcast : ((a : ℤ) - (b : ℤ)) = ((a - b : ℕ) : ℤ) := by
    push_cast [h]
    ring
  rw [hcast, Int.emod_eq_of_lt (by positivity) (by exact_mod_cast h2)]
  simp

/-- C6: a nonempty replay reports as expected duration exactly the recorded
wall-clock span `(endTimestamp - startTimestamp)` when that span is positive
and `sampleCount / sampleRate` seconds otherwise, and emits the timing
discrepancy error precisely when the actual replay duration deviates from the
expected one by more than 20 percent of it. -/
theorem claim6_replay_report (st : St) (k t0 t1 : ℕ)
    (h : st.sampleCount ≠ 0)
    (hs : st.recordingStartTime < 2 ^ 32) (he : st.recordingEndTime < 2 ^ 32) :
    Msg.replayReport (specExpectedSec st) ((usub32 t1 t0 : ℚ) / 1000)
        ∈ (replayVoltages st k t0 t1).1 ∧
    (Msg.timingError ∈ (replayVoltages st k t0 t1).1 ↔
      (2 : ℚ) / 10 * specExpectedSec st <
        |(usub32 t1 t0 : ℚ) / 1000 - specExpectedSec st|) := by
  have hexp : (if st.recordingStartTime < st.recordingEndTime then
        (usub32 st.recordingEndTime st.recordingStartTime : ℚ) / 1000
      else (st.sampleCount : ℚ) / (st.sampleRate : ℚ)) = specExpectedSec st := by
    rw [specExpectedSec]
    split_ifs with hlt
    · rw [usub32_eq_sub _ _ (le_of_lt hlt) (by omega)]
    · rfl
  have hnotloop : Msg.timingError ∉
      (replayLoop st.buffer st.sampleRate (-1)
        (List.range (min st.sampleCount.toNat k))).1 := by
    intro hm
    obtain ⟨i, v, d, heq⟩ := replayLoop_shape _ _ _ _ _ hm
    simp at heq
  constructor
  · rw [replayVoltages, if_neg h]
    simp only [hexp, List.mem_append, List.mem_cons]
    simp
  · rw [replayVoltages, if_neg h]
    simp only [hexp]
    by_cases herr : (2 : ℚ) / 10 * specExpectedSec st <
        |(usub32 t1 t0 : ℚ) / 1000 - specExpectedSec st| <;>
      by_cases hw : 200 < st.sampleRate <;>
        simp [herr, hw, hnotloop]

/-- Witness for C6: one stored sample at 100 Hz replayed over a full second
(expected 0.01 s), which trips the 20 percent discrepancy error. -/
theorem claim6_replay_report_witness :
    Msg.replayReport (specExpectedSec { initSt with sampleCount := 1 })
        ((usub32 1000 0 : ℚ) / 1000) ∈
      (replayVoltages { initSt with sampleCount := 1 } 1 0 1000).1 ∧
    Msg.timingError ∈ (replayVoltages { initSt with sampleCount := 1 } 1 0 1000).1 := by
  have H := claim6_replay_report { initSt with sampleCount := 1 } 1 0 1000
    (by decide) (by decide) (by decide)
  refine ⟨H.1, H.2.mpr ?_⟩
  have h1 : specExpectedSec { initSt with sampleCount := 1 } = 1 / 100 := by
    rw [specExpectedSec]
    norm_num [initSt, DEFAULT_SAMPLE_RATE]
  have h2 : usub32 1000 0 = 1000 := by decide
  rw [h1, h2]
  norm_num
  rw [abs_of_nonneg (by norm_num : (0 : ℚ) ≤ 99 / 100)]
  norm_num

/-- Helper: `rowsOf` keeps a data row and drops any other message. -/
theorem rowsOf_cons (m : Msg) (ms : List Msg) :
    rowsOf (m :: ms) =
      (match m with
       | Msg.dataRow i v t => [(i, v, t)]
       | _ => []) ++ rowsOf ms := by
  cases m <;> simp [rowsOf]

/-- Helper: `rowsOf` distributes over append. -/
theorem rowsOf_append (l1 l2 : List Msg) :
    rowsOf (l1 ++ l2) = rowsOf l1 ++ rowsOf l2 := by
  simp [rowsOf, List.filterMap_append]

/-- Helper: the data rows of the paginated row blocks of `printData` are
exactly one triple per index. -/
theorem rowsOf_blocks (v t : ℕ → ℚ) (c : ℕ → Prop) [DecidablePred c] :
    ∀ l : List ℕ,
      rowsOf ((l.map (fun i => Msg.dataRow i (v i) (t i) ::
          (if c i then [Msg.pressAnyKey] else []))).flatten) =
        l.map (fun i => (i, v i, t i)) := by
  intro l
  induction l with
  | nil => simp [rowsOf]
  | cons a l ih =>
      rw [List.map_cons, List.flatten_cons, rowsOf_append, ih]
      rw [rowsOf_cons]
      split_ifs with hc
      · rw [rowsOf_cons]
        simp [rowsOf]
      · simp [rowsOf]

/-- C9: with a nonempty buffer, `show` emits exactly the rows for indices
`0 .. sampleCount - 1` in order, row `i` carrying `voltageBuffer[i]` and the
time stamp `i * 1000 / sampleRate` milliseconds. -/
theorem claim9_show_rows (st : St) (h : 0 < st.sampleCount) :
    rowsOf (printData st) =
      (List.range st.sampleCount.toNat).map
        (fun i => (i, st.buffer.getD i 0, (i : ℚ) * 1000 / (st.sampleRate : ℚ))) := by
  have hne : st.sampleCount ≠ 0 := by omega
  rw [printData, if_neg hne, rowsOf_cons, rowsOf_cons, rowsOf_cons, rowsOf_append,
    rowsOf_blocks, rowsOf_cons, rowsOf_cons]
  simp [rowsOf]

/-- Witness for C9: ten recorded samples at 50 Hz list rows 0-9 with time
stamps 0, 20, ..., 180 ms. -/
theorem claim9_show_rows_witness :
    rowsOf (printData { initSt with sampleCount := 10, sampleRate := 50 }) =
      [(0, 0, 0), (1, 0, 20), (2, 0, 40), (3, 0, 60), (4, 0, 80),
       (5, 0, 100), (6, 0, 120), (7, 0, 140), (8, 0, 160), (9, 0, 180)] := by
  rw [claim9_show_rows { initSt with sampleCount := 10, sampleRate := 50 }
    (by decide)]
  have h10 : ({ initSt with sampleCount := 10, sampleRate := 50 } : St).sampleCount.toNat = 10 := rfl
  rw [h10, show List.range 10 = [0, 1, 2, 3, 4, 5, 6, 7, 8, 9] from rfl]
  simp only [List.map_cons, List.map_nil]
  norm_num [initSt, getD_replicate_zero]
